import Mathlib

/-!
Verification of the wallet custody / BYOW import subsystem of the
kalshi-mcp repository (src/crypto/wallet-import.ts and the
SolanaWalletService), as a shallow embedding in Lean 4.

Modelling conventions:
* Bytes are `Nat` (with `< 256` stated explicitly where it matters).
* `Buffer.from(s, 'hex')` is modelled by `nodeHexDecode`, reproducing
  Node's lenient semantics: it decodes hex-digit pairs from the left and
  stops silently at the first invalid pair; it never throws.
* `String.prototype.split(':')` is modelled by `splitCh` on the
  underlying character list (keeps empty groups, exactly like JS).
* base58 (the `bs58` package) is implemented in full.
* External cryptographic primitives (PBKDF2, AES-256-GCM, ed25519 key
  derivation) are idealized executable models: PBKDF2 is the injective
  pairing of password and salt; AES-256-GCM is modelled functionally
  with a tag that is an injective encoding of (key, iv, ciphertext), so
  that tag verification succeeds exactly for matching key/iv/ciphertext
  (the ideal-AEAD assumption under which the spec's claims are stated);
  ed25519 public-key derivation is a fixed deterministic byte map.
  Confidentiality is not modelled, only functional behaviour.
* Fallible TypeScript code (throw) becomes `Except WErr`.
* Each crypto-library call site is additionally logged as a `COp` in
  source order, so that "before any key derivation" claims are statable.
-/

/-- Error kinds thrown by the embedded code; one constructor per distinct
`throw new Error(...)` site that the claims mention. -/
inductive WErr where
  | invalidKeyFormat        -- 'Invalid Solana private key format'
  | weakPassword            -- 'Password must be at least 12 characters'
  | malformedEncryptedKey   -- 'Invalid encrypted key format'
  | authFailure             -- 'Decryption failed - incorrect password or corrupted data'
  | invalidDecryptedKey     -- 'Decrypted key is invalid'
  | pubkeyMismatch          -- 'Public key mismatch - data may be corrupted'
  | invalidBundle           -- 'Invalid wallet import bundle'
  | walletAlreadyRegistered -- 'This wallet is already registered to another user'
  | noWallet                -- 'No wallet found for user' / 'No wallet found'
  | noGeneratedWallet       -- 'No generated wallet found for this user...'
  | noImportedWallet        -- 'No imported wallet found for this user'
  | passwordRequired        -- 'Password required for imported wallet transactions'
  | typeError               -- uncaught TypeError from Buffer.from(undefined)
  deriving DecidableEq, Repr

/-- Cryptographic operations, logged in the order the source performs them. -/
inductive COp where
  | bs58Decode     -- bs58.decode
  | ed25519Derive  -- ed25519 public-key derivation inside Keypair.fromSecretKey
  | randomBytes    -- crypto.randomBytes
  | pbkdf2         -- crypto.pbkdf2Sync
  | aesEncrypt     -- createCipheriv / update / final
  | aesDecrypt     -- createDecipheriv / update / final
  deriving DecidableEq, Repr

/-! ## Hex encoding (Node `Buffer` semantics) -/

/-- Lowercase hex digit for a value; out-of-range values are first reduced
mod 16, so the function is total (callers always pass values below 16). -/
def hexChar (n : Nat) : Char :=
  "0123456789abcdef".data.getD (n % 16) '0'

/-- `Buffer.toString('hex')`: two lowercase hex digits per byte. -/
def bytesToHex : List Nat → List Char
  | [] => []
  | b :: rest => hexChar (b / 16) :: hexChar (b % 16) :: bytesToHex rest

/-- Value of a single hex digit character, accepting both cases like Node. -/
def hexDigitVal (c : Char) : Option Nat :=
  if '0' ≤ c ∧ c ≤ '9' then some (c.toNat - 48)
  else if 'a' ≤ c ∧ c ≤ 'f' then some (c.toNat - 97 + 10)
  else if 'A' ≤ c ∧ c ≤ 'F' then some (c.toNat - 65 + 10)
  else none

/-- `Buffer.from(s, 'hex')` in Node: decodes hex pairs from the left and
stops silently at the first invalid or incomplete pair; never throws. -/
def nodeHexDecode : List Char → List Nat
  | c1 :: c2 :: rest =>
      match hexDigitVal c1, hexDigitVal c2 with
      | some h, some l => (16 * h + l) :: nodeHexDecode rest
      | _, _ => []
  | _ => []

/-! ## JS `String.prototype.split(':')` -/

/-- Splits a character list on ':' keeping empty groups, exactly like the
JavaScript `split(':')` (so the result is always nonempty). -/
def splitCh : List Char → List (List Char)
  | [] => [[]]
  | c :: rest =>
      match splitCh rest with
      | [] => [[]]
      | g :: gs => if c = ':' then [] :: g :: gs else (c :: g) :: gs

/-- The JS destructuring `const [a, b] = s.split(':')` followed by the
`if (!a || !b) throw` check: yields the first two groups when both are
nonempty, and `none` (the thrown error) otherwise. -/
def firstTwo : List (List Char) → Option (List Char × List Char)
  | a :: b :: _ => if a ≠ [] ∧ b ≠ [] then some (a, b) else none
  | _ => none

/-! ## Plaintext byte serialization (model of the utf8 step)

The cipher in the source consumes the private-key string as utf8 bytes.
The model serializes each character as three base-256 digits of its code
point (fixed width, hence injective), which keeps every emitted value
below 256 so the hex round-trip through the bundle is exact. -/

/-- Three base-256 digits of a character's code point, most significant first. -/
def encChar (c : Char) : List Nat :=
  [(c.toNat / 65536) % 256, (c.toNat / 256) % 256, c.toNat % 256]

/-- Fixed-width byte serialization of a character list. -/
def encCodes : List Char → List Nat
  | [] => []
  | c :: cs => encChar c ++ encCodes cs

/-- Byte serialization of a string (model of `utf8` plaintext encoding). -/
def strEnc3 (s : String) : List Nat := encCodes s.data

/-- Inverse of `encCodes`: reads characters back from 3-byte blocks. -/
def dec3 : List Nat → List Char
  | a :: b :: c :: rest => Char.ofNat (65536 * a + 256 * b + c) :: dec3 rest
  | _ => []

/-- Inverse of `strEnc3`. -/
def strDec3 (l : List Nat) : String := ⟨dec3 l⟩

/-! ## base58 (the `bs58` package, Bitcoin alphabet) -/

def b58Alphabet : List Char :=
  "123456789ABCDEFGHJKLMNPQRSTUVWXYZabcdefghijkmnopqrstuvwxyz".data

/-- Index of a character in the base58 alphabet, `none` if absent. -/
def b58Val (c : Char) : Option Nat := b58Alphabet.indexOf? c

/-- Base-`b` digits of `n`, most significant first, computed with `n` as
fuel (structural recursion so the kernel can evaluate it). -/
def natDigitsAux (b : Nat) : Nat → Nat → List Nat
  | 0, _ => []
  | fuel + 1, n => if n = 0 then [] else natDigitsAux b fuel (n / b) ++ [n % b]

/-- Base-`b` digits of `n`, most significant first; `[]` for `0`. -/
def natDigitsBE (b n : Nat) : List Nat := natDigitsAux b n n

/-- `bs58.decode`: rejects any character outside the alphabet, otherwise
maps leading '1's to zero bytes and the remainder through base conversion. -/
def bs58decode (s : String) : Option (List Nat) :=
  let vals := s.data.map b58Val
  if vals.any (·.isNone) then none
  else
    let ds := vals.map (·.getD 0)
    let value := ds.foldl (fun acc d => acc * 58 + d) 0
    let zeros := (s.data.takeWhile (· = '1')).length
    some (List.replicate zeros 0 ++ natDigitsBE 256 value)

/-- `bs58.encode`: leading zero bytes become '1's, the remainder is the
base-58 representation of the big-endian value. -/
def bs58encode (bytes : List Nat) : String :=
  let zeros := (bytes.takeWhile (· = 0)).length
  let value := bytes.foldl (fun acc b => acc * 256 + b) 0
  ⟨List.replicate zeros '1' ++ (natDigitsBE 58 value).map (fun d => b58Alphabet.getD d '1')⟩

/-! ## Idealized ed25519 keypair (the `@solana/web3.js` `Keypair`) -/

/-- Idealized model of ed25519 public-key derivation from a 32-byte seed:
a fixed deterministic byte map (the claims need determinism, not the real
curve arithmetic). -/
def pubOfSeed (seed : List Nat) : List Nat := seed.map (fun b => (b + 1) % 256)

structure SKeypair where
  seed : List Nat
  pub : List Nat
  deriving DecidableEq, Repr

/-- `Keypair.fromSecretKey`: requires exactly 64 bytes whose last 32 bytes
equal the public key derived from the first 32 (validation is on by
default in the library). -/
def keypairFromSecretKey (bytes : List Nat) : Option SKeypair :=
  if bytes.length = 64 then
    let seed := bytes.take 32
    let pub := bytes.drop 32
    if pub = pubOfSeed seed then some ⟨seed, pub⟩ else none
  else none

/-- base58 decode followed by `Keypair.fromSecretKey`. -/
def keypairOfBase58 (s : String) : Option SKeypair :=
  (bs58decode s).bind keypairFromSecretKey

/-! ## Idealized PBKDF2 and AES-256-GCM -/

/-- Idealized PBKDF2 derived key: the (password, salt) pair itself — the
injective idealization of a collision-free key-derivation function. -/
def DerivedKey := String × List Nat
  deriving DecidableEq

/-- Idealized GCM authentication tag: an injective byte encoding of the
derived key, the IV and the ciphertext (password characters serialized
fixed-width first, so distinct passwords give distinct tags). -/
def tagBytes (key : DerivedKey) (iv ct : List Nat) : List Nat :=
  encCodes key.1.data ++ key.2 ++ iv ++ ct

/-- Idealized AES-256-GCM encryption of a plaintext string: the ciphertext
bytes are the serialized plaintext (confidentiality is not modelled) and
the tag binds key, IV and ciphertext. -/
def gcmSeal (key : DerivedKey) (iv : List Nat) (pt : String) : List Nat × List Nat :=
  (strEnc3 pt, tagBytes key iv (strEnc3 pt))

/-- Idealized AES-256-GCM decryption: succeeds exactly when the supplied
tag matches the recomputed tag, returning the deserialized plaintext. -/
def gcmOpen (key : DerivedKey) (iv ct tag : List Nat) : Option String :=
  if tag = tagBytes key iv ct then some (strDec3 ct) else none

/-! ## wallet-import.ts -/

/-- The `WalletImportBundle` interface of src/crypto/wallet-import.ts. -/
structure WalletImportBundle where
  encryptedKey : String
  salt : String
  iv : String
  publicKey : String
  version : String
  deriving DecidableEq, Repr

/-- The `DecryptedWallet` interface of src/crypto/wallet-import.ts. -/
structure DecryptedWallet where
  keypair : SKeypair
  publicKey : String
  deriving DecidableEq, Repr

/-- `encryptWalletForImport(privateKeyBase58, password)`.  The two
`crypto.randomBytes` outputs (salt, iv) are explicit arguments.  Returns
the result together with the log of crypto operations performed, in
source order: private-key validation (bs58 decode, then ed25519
derivation inside `Keypair.fromSecretKey`) runs BEFORE the password
length check; PBKDF2 and the cipher run after it. -/
def encryptWalletForImport (privateKeyBase58 password : String)
    (salt iv : List Nat) : Except WErr WalletImportBundle × List COp :=
  match bs58decode privateKeyBase58 with
  | none => (.error .invalidKeyFormat, [.bs58Decode])
  | some privateKeyBytes =>
    -- Keypair.fromSecretKey: nacl rejects a wrong-size key before deriving
    if privateKeyBytes.length ≠ 64 then (.error .invalidKeyFormat, [.bs58Decode])
    else
      let seed := privateKeyBytes.take 32
      let declaredPub := privateKeyBytes.drop 32
      if declaredPub ≠ pubOfSeed seed then
        (.error .invalidKeyFormat, [.bs58Decode, .ed25519Derive])
      else if password.length < 12 then
        (.error .weakPassword, [.bs58Decode, .ed25519Derive])
      else
        let derivedKey : DerivedKey := (password, salt)
        let sealed := gcmSeal derivedKey iv privateKeyBase58
        let bundle : WalletImportBundle :=
          { encryptedKey := ⟨bytesToHex sealed.1⟩ ++ ":" ++ ⟨bytesToHex sealed.2⟩
            salt := ⟨bytesToHex salt⟩
            iv := ⟨bytesToHex iv⟩
            publicKey := bs58encode (pubOfSeed seed)
            version := "1.0" }
        (.ok bundle,
         [.bs58Decode, .ed25519Derive, .randomBytes, .randomBytes, .pbkdf2, .aesEncrypt])

/-- The plaintext-recovery prefix of `decryptImportedWallet`: parse the
`encryptedKey` field, hex-decode salt/iv/tag, re-derive the key, and run
authenticated decryption.  Mirrors lines 91-120 of wallet-import.ts. -/
def decryptToPlaintext (bundle : WalletImportBundle) (password : String) :
    Except WErr String × List COp :=
  match firstTwo (splitCh bundle.encryptedKey.data) with
  | none => (.error .malformedEncryptedKey, [])
  | some (encryptedHex, authTagHex) =>
    let salt := nodeHexDecode bundle.salt.data
    let iv := nodeHexDecode bundle.iv.data
    let authTag := nodeHexDecode authTagHex
    let derivedKey : DerivedKey := (password, salt)
    let ctBytes := nodeHexDecode encryptedHex
    match gcmOpen derivedKey iv ctBytes authTag with
    | none => (.error .authFailure, [.pbkdf2, .aesDecrypt])
    | some decrypted => (.ok decrypted, [.pbkdf2, .aesDecrypt])

/-- `decryptImportedWallet(bundle, password)`: plaintext recovery, then
keypair reconstruction, then the declared-public-key cross-check
(lines 122-139 of wallet-import.ts). -/
def decryptImportedWallet (bundle : WalletImportBundle) (password : String) :
    Except WErr DecryptedWallet × List COp :=
  match decryptToPlaintext bundle password with
  | (.error e, ops) => (.error e, ops)
  | (.ok decrypted, ops) =>
    match bs58decode decrypted with
    | none => (.error .invalidDecryptedKey, ops ++ [.bs58Decode])
    | some privateKeyBytes =>
      match keypairFromSecretKey privateKeyBytes with
      | none => (.error .invalidDecryptedKey, ops ++ [.bs58Decode, .ed25519Derive])
      | some keypair =>
        if bs58encode keypair.pub ≠ bundle.publicKey then
          (.error .pubkeyMismatch, ops ++ [.bs58Decode, .ed25519Derive])
        else
          (.ok ⟨keypair, bs58encode keypair.pub⟩, ops ++ [.bs58Decode, .ed25519Derive])

/-- `verifyWalletImportBundle(bundle)` (lines 146-180).  Note exactly
which checks the source performs: the `Buffer.from(..., 'hex')` calls on
salt, iv and the two encryptedKey parts never throw in Node (lenient hex
decoding), so they impose no constraint, and the destructured split only
requires the first two groups to be nonempty. -/
def verifyWalletImportBundle (bundle : WalletImportBundle) : Bool :=
  if bundle.version ≠ "1.0" then false
  else if bundle.encryptedKey = "" ∨ bundle.salt = "" ∨ bundle.iv = "" ∨
          bundle.publicKey = "" then false
  else
    match bs58decode bundle.publicKey with
    | none => false  -- bs58.decode threw, caught by the surrounding try
    | some publicKeyBytes =>
      if publicKeyBytes.length ≠ 32 then false
      else
        -- Buffer.from(bundle.salt,'hex') and Buffer.from(bundle.iv,'hex'):
        -- lenient, never throw, so no condition arises here
        match firstTwo (splitCh bundle.encryptedKey.data) with
        | none => false
        | some _ => true  -- Buffer.from on both parts: lenient, never throws

/-! ## SolanaWalletService (wallet.service.ts) and the balances tool

The persistence layer (Prisma) is modelled as a list of user rows; a
lookup by id is modelled by handing the function the fetched row.  The
server-side symmetric encryption service (crypto/encryption.ts) is an
external collaborator here and is passed in as a decryption function
where needed. -/

/-- The wallet-relevant columns of the Prisma `user` record. -/
structure UserRow where
  id : String
  solanaPublicKey : Option String
  encryptedPrivateKey : Option String
  importedWalletPublicKey : Option String
  importedWalletEncrypted : Option String
  importedWalletSalt : Option String
  walletImportedAt : Option Nat
  createdAt : Nat
  deriving DecidableEq, Repr

inductive WalletType where
  | generated
  | imported
  deriving DecidableEq, Repr

/-- The `WalletInfo` interface of wallet.service.ts. -/
structure WalletInfo where
  publicKey : String
  type : WalletType
  createdAt : Nat
  deriving DecidableEq, Repr

/-- JS truthiness of an optional string column: null/undefined and the
empty string are falsy. -/
def jsTruthy : Option String → Bool
  | none => false
  | some s => s ≠ ""

/-- `SolanaWalletService.getWalletInfo(userId)`, given the row the Prisma
lookup returned (`none` when the user does not exist).  Prefers the
imported wallet when both exist (lines 151-172). -/
def getWalletInfo (row? : Option UserRow) : Option WalletInfo :=
  match row? with
  | none => none
  | some user =>
    if jsTruthy user.importedWalletPublicKey then
      some { publicKey := user.importedWalletPublicKey.getD ""
             type := .imported
             createdAt := user.walletImportedAt.getD user.createdAt }
    else if jsTruthy user.solanaPublicKey then
      some { publicKey := user.solanaPublicKey.getD ""
             type := .generated
             createdAt := user.createdAt }
    else
      none

/-- `prisma.user.findFirst` with the OR condition of importWallet
(lines 104-111): first row whose generated or imported key equals `pk`. -/
def findFirstByKey (db : List UserRow) (pk : String) : Option UserRow :=
  db.find? (fun u => u.solanaPublicKey = some pk || u.importedWalletPublicKey = some pk)

/-- `prisma.user.update({where: {id}, data})`: rewrites the row(s) with the
given id through `upd`, leaving other rows unchanged. -/
def updateUser (db : List UserRow) (userId : String) (upd : UserRow → UserRow) :
    List UserRow :=
  db.map (fun u => if u.id = userId then upd u else u)

/-- `SolanaWalletService.importWallet(userId, bundle)` (lines 92-133):
format verification, the cross-user uniqueness pre-check, then
persistence of the bundle with salt, iv and version packed colon-joined
into the single `importedWalletSalt` column.  `now` is the
`new Date()` timestamp.  Errors persist nothing. -/
def importWallet (db : List UserRow) (userId : String)
    (bundle : WalletImportBundle) (now : Nat) :
    Except WErr (List UserRow × WalletInfo) :=
  if verifyWalletImportBundle bundle = false then .error .invalidBundle
  else
    match findFirstByKey db bundle.publicKey with
    | some existingUser =>
      if existingUser.id ≠ userId then .error .walletAlreadyRegistered
      else
        .ok (updateUser db userId (fun u =>
              { u with importedWalletPublicKey := some bundle.publicKey
                       importedWalletEncrypted := some bundle.encryptedKey
                       importedWalletSalt :=
                         some (bundle.salt ++ ":" ++ bundle.iv ++ ":" ++ bundle.version)
                       walletImportedAt := some now }),
             ⟨bundle.publicKey, .imported, now⟩)
    | none =>
        .ok (updateUser db userId (fun u =>
              { u with importedWalletPublicKey := some bundle.publicKey
                       importedWalletEncrypted := some bundle.encryptedKey
                       importedWalletSalt :=
                         some (bundle.salt ++ ":" ++ bundle.iv ++ ":" ++ bundle.version)
                       walletImportedAt := some now }),
             ⟨bundle.publicKey, .imported, now⟩)

/-- The bundle-reconstruction prefix of
`SolanaWalletService.getImportedWalletKeypair` (lines 238-250): the
guard on the stored columns, the split of the packed
`importedWalletSalt` column, and the rebuilt `WalletImportBundle`.
If the packed column has no second group, the JS destructuring leaves
`iv` undefined and `Buffer.from(undefined,'hex')` later throws a
TypeError; an empty or missing third group falls back to '1.0' via
`version || '1.0'`. -/
def reconstructBundle (user : UserRow) : Except WErr WalletImportBundle :=
  if ¬ (jsTruthy user.importedWalletEncrypted ∧ jsTruthy user.importedWalletSalt) then
    .error .noImportedWallet
  else
    match splitCh (user.importedWalletSalt.getD "").data with
    | s :: i :: rest =>
      let version : String :=
        match rest with
        | [] => "1.0"
        | v :: _ => if v = [] then "1.0" else ⟨v⟩
      .ok { encryptedKey := user.importedWalletEncrypted.getD ""
            salt := ⟨s⟩
            iv := ⟨i⟩
            publicKey := user.importedWalletPublicKey.getD ""
            version := version }
    | _ => .error .typeError

/-- `SolanaWalletService.getImportedWalletKeypair(userId, password)`
(lines 226-255), given the user's row: reconstruct the stored bundle and
decrypt it with the supplied password. -/
def getImportedWalletKeypair (user : UserRow) (password : String) :
    Except WErr SKeypair × List COp :=
  match reconstructBundle user with
  | .error e => (.error e, [])
  | .ok bundle =>
    match decryptImportedWallet bundle password with
    | (.error e, ops) => (.error e, ops)
    | (.ok dw, ops) => (.ok dw.keypair, ops)

/-- `SolanaWalletService.getKeypairForSigning(userId)` (lines 205-221) for
generated wallets, with the server-side encryption service's decrypt
passed in as `serverDecrypt`. -/
def getKeypairForSigning (serverDecrypt : String → String) (user : UserRow) :
    Except WErr SKeypair × List COp :=
  match user.encryptedPrivateKey with
  | none => (.error .noGeneratedWallet, [])
  | some blob =>
    if blob = "" then (.error .noGeneratedWallet, [])
    else
      let privateKeyBase58 := serverDecrypt blob
      match keypairOfBase58 privateKeyBase58 with
      | none => (.error .invalidKeyFormat, [.bs58Decode])
      | some kp => (.ok kp, [.bs58Decode, .ed25519Derive])

/-- `SolanaWalletService.signAndSendTransaction` (lines 260-301): resolve
the wallet, choose the imported or generated signing path, obtain the
keypair, and hand it to the submission step (`submit`, standing for the
sign-send-confirm block).  The `if (!password)` guard follows JS
falsiness: both an omitted password and the empty string throw the
password-required error.  The `finally { keypair.secretKey.fill(0) }`
block has no functional effect modelled here (see the notes on C3). -/
def signAndSendTransaction (serverDecrypt : String → String)
    (submit : SKeypair → Except WErr String)
    (row? : Option UserRow) (password : Option String) :
    Except WErr String × List COp :=
  match getWalletInfo row? with
  | none => (.error .noWallet, [])
  | some walletInfo =>
    match row? with
    | none => (.error .noWallet, [])
    | some user =>
      if walletInfo.type = .imported then
        match password with
        | none => (.error .passwordRequired, [])
        | some pw =>
          if pw = "" then (.error .passwordRequired, [])
          else
            match getImportedWalletKeypair user pw with
            | (.error e, ops) => (.error e, ops)
            | (.ok keypair, ops) => (submit keypair, ops)
      else
        match getKeypairForSigning serverDecrypt user with
        | (.error e, ops) => (.error e, ops)
        | (.ok keypair, ops) => (submit keypair, ops)

/-- Placeholder for on-chain balance data returned by `getBalances`. -/
structure WalletBalances where
  sol : Nat
  usdc : Nat
  deriving DecidableEq, Repr

/-- The `kalshi_get_balances` tool handler (mcp tool dispatch): resolves
the wallet via `getWalletInfo` and queries balances at the resolved
public key; `balancesOf` stands for the on-chain
`walletService.getBalances` lookup. -/
def kalshiGetBalances (balancesOf : String → WalletBalances)
    (row? : Option UserRow) : Except WErr (String × WalletBalances) :=
  match getWalletInfo row? with
  | none => .error .noWallet
  | some wallet => .ok (wallet.publicKey, balancesOf wallet.publicKey)

/-! ## Concrete values used by witnesses and counterexamples -/

/-- Seed of the reference test keypair: 32 zero bytes. -/
def seed0 : List Nat := List.replicate 32 0

/-- Its (model-)derived public key: 32 bytes of value 1. -/
def pub0 : List Nat := List.replicate 32 1

/-- A valid 64-byte secret key under the model. -/
def secret0 : List Nat := seed0 ++ pub0

/-- The reference keypair. -/
def kp0 : SKeypair := ⟨seed0, pub0⟩

/-- The reference private key in base58. -/
def K0 : String := bs58encode secret0

/-- A base58 string decoding to exactly 32 bytes (32 zero bytes), used as
a well-formed declared public key in format-level tests. -/
def pk32 : String := "11111111111111111111111111111111"

/-- Reference 32-byte salt. -/
def salt0 : List Nat := List.replicate 32 7

/-- Reference 16-byte IV. -/
def iv0 : List Nat := List.replicate 16 3

/-- A bundle whose encryptedKey splits into three hex parts: well-formed
for every check the source performs, but not "exactly two parts". -/
def bundle3parts : WalletImportBundle :=
  { encryptedKey := "aa:bb:cc", salt := "00", iv := "00",
    publicKey := pk32, version := "1.0" }

/-- A format-valid bundle used in import/storage tests. -/
def bundleFmt : WalletImportBundle :=
  { encryptedKey := "aa:bb", salt := "00ff", iv := "0102",
    publicKey := pk32, version := "1.0" }

/-- A user who already holds `pk32` as generated wallet key. -/
def rowBob : UserRow :=
  { id := "bob", solanaPublicKey := some pk32, encryptedPrivateKey := some "blob",
    importedWalletPublicKey := none, importedWalletEncrypted := none,
    importedWalletSalt := none, walletImportedAt := none, createdAt := 1 }

/-- A user with no wallet yet. -/
def rowCarol : UserRow :=
  { id := "carol", solanaPublicKey := none, encryptedPrivateKey := none,
    importedWalletPublicKey := none, importedWalletEncrypted := none,
    importedWalletSalt := none, walletImportedAt := none, createdAt := 2 }

/-- A user with both a generated and an imported wallet on record. -/
def rowBoth : UserRow :=
  { id := "dora", solanaPublicKey := some "genKey",
    encryptedPrivateKey := some "blob",
    importedWalletPublicKey := some pk32,
    importedWalletEncrypted := some "aa:bb",
    importedWalletSalt := some "00ff:0102:1.0",
    walletImportedAt := some 9, createdAt := 3 }

/-- Reference database for import tests. -/
def db0 : List UserRow := [rowBob, rowCarol]

/-- Carol's row after importing `bundleFmt` at time 5. -/
def rowCarolImp : UserRow :=
  { id := "carol", solanaPublicKey := none, encryptedPrivateKey := none,
    importedWalletPublicKey := some pk32,
    importedWalletEncrypted := some "aa:bb",
    importedWalletSalt := some "00ff:0102:1.0",
    walletImportedAt := some 5, createdAt := 2 }

/-- The wallet public keys a user row holds (generated and imported). -/
def keysOf (u : UserRow) : List String :=
  u.solanaPublicKey.toList ++ u.importedWalletPublicKey.toList

/-- A user row holds a public key when either wallet column equals it. -/
def holdsKey (u : UserRow) (pk : String) : Prop :=
  u.solanaPublicKey = some pk ∨ u.importedWalletPublicKey = some pk

instance (u : UserRow) (pk : String) : Decidable (holdsKey u pk) := by
  unfold holdsKey
  infer_instance

/-- The uniqueness invariant of the data model: any given wallet public
key (generated or imported) belongs to at most one user id.  Stated over
the key lists so that it is decidable on concrete databases. -/
def uniqueOwners (db : List UserRow) : Prop :=
  ∀ u ∈ db, ∀ v ∈ db, ∀ pk ∈ keysOf u, pk ∈ keysOf v → u.id = v.id

instance (db : List UserRow) : Decidable (uniqueOwners db) := by
  unfold uniqueOwners
  infer_instance

deriving instance DecidableEq for Except

/-! ## Codec-layer lemmas -/

theorem hexChar_ne_colon (n : Nat) : hexChar n ≠ ':' := by
  unfold hexChar
  have h : n % 16 < 16 := Nat.mod_lt _ (by norm_num)
  generalize n % 16 = k at h
  interval_cases k <;> decide

theorem hexDigitVal_hexChar (n : Nat) (h : n < 16) : hexDigitVal (hexChar n) = some n := by
  interval_cases n <;> decide

theorem nodeHexDecode_bytesToHex (l : List Nat) (h : ∀ b ∈ l, b < 256) :
    nodeHexDecode (bytesToHex l) = l := by
  induction l with
  | nil => rfl
  | cons b rest ih =>
    have hb : b < 256 := h b (List.mem_cons_self ..)
    have h1 : b / 16 < 16 := by omega
    have h2 : b % 16 < 16 := Nat.mod_lt _ (by norm_num)
    have hstep : nodeHexDecode (bytesToHex (b :: rest)) =
        (16 * (b / 16) + b % 16) :: nodeHexDecode (bytesToHex rest) := by
      simp [bytesToHex, nodeHexDecode, hexDigitVal_hexChar _ h1, hexDigitVal_hexChar _ h2]
    rw [hstep, ih (fun x hx => h x (List.mem_cons_of_mem _ hx))]
    congr 1
    omega

theorem bytesToHex_not_colon (l : List Nat) : ':' ∉ bytesToHex l := by
  induction l with
  | nil => simp [bytesToHex]
  | cons b rest ih =>
    intro hmem
    simp only [bytesToHex, List.mem_cons] at hmem
    rcases hmem with h | h | h
    · exact hexChar_ne_colon _ h.symm
    · exact hexChar_ne_colon _ h.symm
    · exact ih h

theorem splitCh_ne_nil (l : List Char) : splitCh l ≠ [] := by
  cases l with
  | nil => simp [splitCh]
  | cons c rest =>
    simp only [splitCh]
    rcases h : splitCh rest with _ | ⟨g, gs⟩
    · simp
    · by_cases hc : c = ':' <;> simp [hc]

theorem splitCh_cons_colon (r : List Char) : splitCh (':' :: r) = [] :: splitCh r := by
  simp only [splitCh]
  rcases h : splitCh r with _ | ⟨g, gs⟩
  · exact absurd h (splitCh_ne_nil r)
  · simp

theorem splitCh_no_colon (l : List Char) (h : ':' ∉ l) : splitCh l = [l] := by
  induction l with
  | nil => rfl
  | cons c rest ih =>
    have hc : c ≠ ':' := fun e => h (e ▸ List.mem_cons_self ..)
    have hr : ':' ∉ rest := fun hm => h (List.mem_cons_of_mem _ hm)
    simp only [splitCh, ih hr]
    simp [hc]

theorem splitCh_append_colon (a r : List Char) (h : ':' ∉ a) :
    splitCh (a ++ ':' :: r) = a :: splitCh r := by
  induction a with
  | nil => simpa using splitCh_cons_colon r
  | cons c a' ih =>
    have hc : c ≠ ':' := fun e => h (e ▸ List.mem_cons_self ..)
    have ha' : ':' ∉ a' := fun hm => h (List.mem_cons_of_mem _ hm)
    show splitCh (c :: (a' ++ ':' :: r)) = (c :: a') :: splitCh r
    simp only [splitCh]
    rw [ih ha']
    simp [hc]

theorem encChar_lt (c : Char) : ∀ b ∈ encChar c, b < 256 := by
  simp only [encChar, List.mem_cons, List.not_mem_nil, or_false]
  intro b hb
  rcases hb with h | h | h <;> omega

theorem encCodes_lt (l : List Char) : ∀ b ∈ encCodes l, b < 256 := by
  induction l with
  | nil => simp [encCodes]
  | cons c cs ih =>
    intro b hb
    simp only [encCodes, List.mem_append] at hb
    rcases hb with h | h
    · exact encChar_lt c b h
    · exact ih b h

theorem char_toNat_lt (c : Char) : c.toNat < 1114112 := by
  have h := c.valid
  simp only [Char.toNat]
  rcases h with h | h <;> omega

theorem encChar_recon (c : Char) :
    65536 * ((c.toNat / 65536) % 256) + 256 * ((c.toNat / 256) % 256) + c.toNat % 256
      = c.toNat := by
  have h := char_toNat_lt c
  omega

theorem char_eq_of_toNat_eq {c d : Char} (h : c.toNat = d.toNat) : c = d := by
  have hc := Char.ofNat_toNat c
  rw [h, Char.ofNat_toNat] at hc
  exact hc.symm

theorem dec3_encCodes (l : List Char) : dec3 (encCodes l) = l := by
  induction l with
  | nil => rfl
  | cons c cs ih =>
    show dec3 (encChar c ++ encCodes cs) = c :: cs
    simp only [encChar, List.cons_append, List.nil_append, dec3]
    rw [encChar_recon, Char.ofNat_toNat]
    show c :: dec3 (encCodes cs) = c :: cs
    rw [ih]

theorem strDec3_strEnc3 (s : String) : strDec3 (strEnc3 s) = s := by
  unfold strDec3 strEnc3
  rw [dec3_encCodes]

theorem encCodes_inj : ∀ (l1 l2 : List Char), encCodes l1 = encCodes l2 → l1 = l2
  | [], [], _ => rfl
  | [], _ :: _, h => by simp [encCodes, encChar] at h
  | _ :: _, [], h => by simp [encCodes, encChar] at h
  | c :: cs, d :: ds, h => by
      simp only [encCodes, encChar, List.cons_append, List.nil_append,
        List.cons.injEq] at h
      obtain ⟨h1, h2, h3, h4⟩ := h
      have hn : c.toNat = d.toNat := by
        have rc := encChar_recon c
        have rd := encChar_recon d
        omega
      rw [char_eq_of_toNat_eq hn, encCodes_inj cs ds h4]

theorem tagBytes_pw_inj {p p' : String} {s iv ct : List Nat}
    (h : tagBytes (p, s) iv ct = tagBytes (p', s) iv ct) : p = p' := by
  unfold tagBytes at h
  simp only [List.append_assoc] at h
  have hd := encCodes_inj p.data p'.data (List.append_left_injective _ h)
  cases p
  cases p'
  exact congrArg String.mk hd

/-! ## Characterization of encryption and decryption on honest inputs -/

/-- Unpacks the `keypairOfBase58` hypothesis into its component facts. -/
theorem keypairOfBase58_spec {K : String} {kp : SKeypair}
    (hK : keypairOfBase58 K = some kp) :
    ∃ bytes, bs58decode K = some bytes ∧ bytes.length = 64 ∧
      kp.seed = bytes.take 32 ∧ kp.pub = bytes.drop 32 ∧
      bytes.drop 32 = pubOfSeed (bytes.take 32) := by
  unfold keypairOfBase58 at hK
  cases hbs : bs58decode K with
  | none => rw [hbs] at hK; simp at hK
  | some bytes =>
    rw [hbs] at hK
    have hks : keypairFromSecretKey bytes = some kp := hK
    unfold keypairFromSecretKey at hks
    by_cases hlen : bytes.length = 64
    · rw [if_pos hlen] at hks
      by_cases hpub : bytes.drop 32 = pubOfSeed (bytes.take 32)
      · rw [if_pos hpub] at hks
        injection hks with h
        refine ⟨bytes, rfl, hlen, ?_, ?_, hpub⟩
        · rw [← h]
        · rw [← h]
      · rw [if_neg hpub] at hks; simp at hks
    · rw [if_neg hlen] at hks; simp at hks

/-- On a valid key and a long-enough password, `encryptWalletForImport`
returns exactly the bundle built from the model cipher. -/
theorem encrypt_ok_eq (K P : String) (salt iv : List Nat) (kp : SKeypair)
    (hK : keypairOfBase58 K = some kp) (hP : 12 ≤ P.length) :
    encryptWalletForImport K P salt iv =
      (.ok { encryptedKey :=
               (⟨bytesToHex (strEnc3 K)⟩ : String) ++ ":" ++
               (⟨bytesToHex (tagBytes (P, salt) iv (strEnc3 K))⟩ : String)
             salt := ⟨bytesToHex salt⟩
             iv := ⟨bytesToHex iv⟩
             publicKey := bs58encode kp.pub
             version := "1.0" },
       [.bs58Decode, .ed25519Derive, .randomBytes, .randomBytes, .pbkdf2, .aesEncrypt]) := by
  obtain ⟨bytes, hbs, hlen, hseed, hpub, hderive⟩ := keypairOfBase58_spec hK
  unfold encryptWalletForImport
  rw [hbs]
  simp only [hlen]
  rw [if_neg (by simp), if_neg (by rw [hderive]; simp), if_neg (by omega)]
  unfold gcmSeal
  rw [hpub, hderive]

/-- A key that reconstructs into a keypair is a nonempty string. -/
theorem key_ne_empty {K : String} {kp : SKeypair}
    (hK : keypairOfBase58 K = some kp) : K.data ≠ [] := by
  intro e
  obtain ⟨bytes, hbs, hlen, -, -, -⟩ := keypairOfBase58_spec hK
  unfold bs58decode at hbs
  rw [e] at hbs
  simp [natDigitsBE, natDigitsAux] at hbs
  rw [hbs] at hlen
  simp at hlen

/-- On the bundle produced by a successful encryption, plaintext recovery
returns the original key under the original password and an
authentication failure under any other password; either way PBKDF2 and
the cipher both ran. -/
theorem decryptToPlaintext_encBundle (K P Q pk ver : String) (salt iv : List Nat)
    (kp : SKeypair)
    (hK : keypairOfBase58 K = some kp) (hP : 12 ≤ P.length)
    (hsalt : ∀ b ∈ salt, b < 256) (hiv : ∀ b ∈ iv, b < 256) :
    decryptToPlaintext
      { encryptedKey :=
          (⟨bytesToHex (strEnc3 K)⟩ : String) ++ ":" ++
          (⟨bytesToHex (tagBytes (P, salt) iv (strEnc3 K))⟩ : String)
        salt := ⟨bytesToHex salt⟩
        iv := ⟨bytesToHex iv⟩
        publicKey := pk
        version := ver } Q
    = ((if Q = P then .ok K else .error .authFailure : Except WErr String),
       [.pbkdf2, .aesDecrypt]) := by
  have hctb : ∀ b ∈ strEnc3 K, b < 256 := encCodes_lt K.data
  have htagb : ∀ b ∈ tagBytes (P, salt) iv (strEnc3 K), b < 256 := by
    intro b hb
    unfold tagBytes at hb
    simp only [List.append_assoc, List.mem_append] at hb
    rcases hb with h | h | h | h
    · exact encCodes_lt P.data b h
    · exact hsalt b h
    · exact hiv b h
    · exact hctb b h
  have hdata :
      ((⟨bytesToHex (strEnc3 K)⟩ : String) ++ ":" ++
        (⟨bytesToHex (tagBytes (P, salt) iv (strEnc3 K))⟩ : String)).data
      = bytesToHex (strEnc3 K) ++ ':' ::
          bytesToHex (tagBytes (P, salt) iv (strEnc3 K)) := by
    rw [String.data_append, String.data_append, List.append_assoc]
    rfl
  have hctne : bytesToHex (strEnc3 K) ≠ [] := by
    have hk := key_ne_empty hK
    cases hd : K.data with
    | nil => exact absurd hd hk
    | cons c cs =>
      unfold strEnc3
      rw [hd]
      simp [encCodes, encChar, bytesToHex]
  have htagne : bytesToHex (tagBytes (P, salt) iv (strEnc3 K)) ≠ [] := by
    have hpd : P.data ≠ [] := by
      intro e
      have : P.length = 0 := by
        show P.data.length = 0
        rw [e]
        rfl
      omega
    cases hd : P.data with
    | nil => exact absurd hd hpd
    | cons c cs =>
      unfold tagBytes
      simp only
      rw [hd]
      simp [encCodes, encChar, bytesToHex]
  unfold decryptToPlaintext
  rw [hdata, splitCh_append_colon _ _ (bytesToHex_not_colon _),
      splitCh_no_colon _ (bytesToHex_not_colon _)]
  simp only [firstTwo, hctne, htagne, ne_eq, not_false_iff, and_self, if_true]
  show (match gcmOpen (Q, nodeHexDecode (String.mk (bytesToHex salt)).data)
          (nodeHexDecode (String.mk (bytesToHex iv)).data)
          (nodeHexDecode (bytesToHex (strEnc3 K)))
          (nodeHexDecode (bytesToHex (tagBytes (P, salt) iv (strEnc3 K)))) with
        | none => (Except.error WErr.authFailure, [COp.pbkdf2, COp.aesDecrypt])
        | some decrypted => (Except.ok decrypted, [COp.pbkdf2, COp.aesDecrypt])) = _
  rw [show (String.mk (bytesToHex salt)).data = bytesToHex salt from rfl,
      show (String.mk (bytesToHex iv)).data = bytesToHex iv from rfl,
      nodeHexDecode_bytesToHex salt hsalt, nodeHexDecode_bytesToHex iv hiv,
      nodeHexDecode_bytesToHex _ hctb, nodeHexDecode_bytesToHex _ htagb]
  unfold gcmOpen
  by_cases hq : Q = P
  · subst hq
    rw [if_pos rfl, if_pos rfl, strDec3_strEnc3]
  · rw [if_neg (fun he => hq (tagBytes_pw_inj he).symm), if_neg hq]

/-! ## Claim theorems -/

/-- C1: for every base58-encoded private key K that decodes to a valid
signing keypair and every password P of at least 12 characters,
decryptImportedWallet applied to encryptWalletForImport's bundle with the
same password succeeds, the recovered plaintext equals K exactly, and the
returned publicKey equals the public key derived from K. -/
theorem C1_roundtrip (K P : String) (salt iv : List Nat) (kp : SKeypair)
    (hK : keypairOfBase58 K = some kp) (hP : 12 ≤ P.length)
    (hsalt : ∀ b ∈ salt, b < 256) (hiv : ∀ b ∈ iv, b < 256) :
    ∃ bundle : WalletImportBundle,
      (encryptWalletForImport K P salt iv).1 = .ok bundle ∧
      (decryptToPlaintext bundle P).1 = .ok K ∧
      (decryptImportedWallet bundle P).1 =
        .ok ⟨kp, bs58encode kp.pub⟩ ∧
      (decryptImportedWallet bundle P).1.map DecryptedWallet.publicKey =
        .ok (bs58encode kp.pub) := by
  obtain ⟨bytes, hbs, hlen, hseed, hpub, hderive⟩ := keypairOfBase58_spec hK
  have hks : keypairFromSecretKey bytes = some kp := by
    have h := hK
    unfold keypairOfBase58 at h
    rw [hbs] at h
    exact h
  have hfull : (decryptImportedWallet
      { encryptedKey :=
          (⟨bytesToHex (strEnc3 K)⟩ : String) ++ ":" ++
          (⟨bytesToHex (tagBytes (P, salt) iv (strEnc3 K))⟩ : String)
        salt := ⟨bytesToHex salt⟩
        iv := ⟨bytesToHex iv⟩
        publicKey := bs58encode kp.pub
        version := "1.0" } P).1 = .ok ⟨kp, bs58encode kp.pub⟩ := by
    unfold decryptImportedWallet
    rw [decryptToPlaintext_encBundle K P P (bs58encode kp.pub) "1.0" salt iv kp
        hK hP hsalt hiv]
    simp [hbs, hks]
  refine ⟨_, by rw [encrypt_ok_eq K P salt iv kp hK hP], ?_, hfull, ?_⟩
  · rw [decryptToPlaintext_encBundle K P P (bs58encode kp.pub) "1.0" salt iv kp
        hK hP hsalt hiv]
    simp
  · rw [hfull]
    rfl

/-- C2: decrypting an honestly encrypted bundle with any password other
than the one used at encryption fails with the authentication error (and
hence never returns a value, in particular no wrong-but-parseable key). -/
theorem C2_wrong_password (K P Q : String) (salt iv : List Nat) (kp : SKeypair)
    (hK : keypairOfBase58 K = some kp) (hP : 12 ≤ P.length)
    (hQlen : 12 ≤ Q.length) (hQ : Q ≠ P)
    (hsalt : ∀ b ∈ salt, b < 256) (hiv : ∀ b ∈ iv, b < 256) :
    ∃ bundle : WalletImportBundle,
      (encryptWalletForImport K P salt iv).1 = .ok bundle ∧
      (decryptImportedWallet bundle Q).1 = .error .authFailure := by
  refine ⟨_, by rw [encrypt_ok_eq K P salt iv kp hK hP], ?_⟩
  unfold decryptImportedWallet
  rw [decryptToPlaintext_encBundle K P Q (bs58encode kp.pub) "1.0" salt iv kp
      hK hP hsalt hiv]
  rw [if_neg hQ]

/-- C6: a bundle whose ciphertext authenticates and reconstructs into a
valid keypair, but whose declared publicKey field differs from the
recomputed public key, is rejected with the key-mismatch error even
though the authentication tag verified (plaintext recovery succeeded). -/
theorem C6_forged_pubkey (K P q : String) (salt iv : List Nat) (kp : SKeypair)
    (hK : keypairOfBase58 K = some kp) (hP : 12 ≤ P.length)
    (hq : q ≠ bs58encode kp.pub)
    (hsalt : ∀ b ∈ salt, b < 256) (hiv : ∀ b ∈ iv, b < 256) :
    ∃ bundle : WalletImportBundle,
      (encryptWalletForImport K P salt iv).1 = .ok bundle ∧
      (decryptToPlaintext { bundle with publicKey := q } P).1 = .ok K ∧
      (decryptImportedWallet { bundle with publicKey := q } P).1 =
        .error .pubkeyMismatch := by
  obtain ⟨bytes, hbs, hlen, hseed, hpub, hderive⟩ := keypairOfBase58_spec hK
  have hks : keypairFromSecretKey bytes = some kp := by
    have h := hK
    unfold keypairOfBase58 at h
    rw [hbs] at h
    exact h
  refine ⟨_, by rw [encrypt_ok_eq K P salt iv kp hK hP], ?_, ?_⟩
  · show (decryptToPlaintext
        { encryptedKey :=
            (⟨bytesToHex (strEnc3 K)⟩ : String) ++ ":" ++
            (⟨bytesToHex (tagBytes (P, salt) iv (strEnc3 K))⟩ : String)
          salt := ⟨bytesToHex salt⟩
          iv := ⟨bytesToHex iv⟩
          publicKey := q
          version := "1.0" } P).1 = .ok K
    rw [decryptToPlaintext_encBundle K P P q "1.0" salt iv kp hK hP hsalt hiv]
    simp
  · show (decryptImportedWallet
        { encryptedKey :=
            (⟨bytesToHex (strEnc3 K)⟩ : String) ++ ":" ++
            (⟨bytesToHex (tagBytes (P, salt) iv (strEnc3 K))⟩ : String)
          salt := ⟨bytesToHex salt⟩
          iv := ⟨bytesToHex iv⟩
          publicKey := q
          version := "1.0" } P).1 = .error .pubkeyMismatch
    unfold decryptImportedWallet
    rw [decryptToPlaintext_encBundle K P P q "1.0" salt iv kp hK hP hsalt hiv]
    simp [hbs, hks, Ne.symm hq]

set_option maxRecDepth 400000 in
/-- Witness for C1 at a concrete key, password, salt and IV. -/
theorem C1_roundtrip_witness :
    ∃ bundle : WalletImportBundle,
      (encryptWalletForImport K0 "correcthorse" salt0 iv0).1 = .ok bundle ∧
      (decryptToPlaintext bundle "correcthorse").1 = .ok K0 ∧
      (decryptImportedWallet bundle "correcthorse").1 =
        .ok ⟨kp0, bs58encode kp0.pub⟩ ∧
      (decryptImportedWallet bundle "correcthorse").1.map DecryptedWallet.publicKey =
        .ok (bs58encode kp0.pub) :=
  C1_roundtrip K0 "correcthorse" salt0 iv0 kp0 (by decide) (by decide)
    (by decide) (by decide)

set_option maxRecDepth 400000 in
/-- Witness for C2 at a concrete key and two distinct 12+-char passwords. -/
theorem C2_wrong_password_witness :
    ∃ bundle : WalletImportBundle,
      (encryptWalletForImport K0 "correcthorse" salt0 iv0).1 = .ok bundle ∧
      (decryptImportedWallet bundle "Correcthorse").1 = .error .authFailure :=
  C2_wrong_password K0 "correcthorse" "Correcthorse" salt0 iv0 kp0 (by decide)
    (by decide) (by decide) (by decide) (by decide) (by decide)

set_option maxRecDepth 400000 in
/-- Witness for C6 at a concrete key, password and forged public key. -/
theorem C6_forged_pubkey_witness :
    ∃ bundle : WalletImportBundle,
      (encryptWalletForImport K0 "correcthorse" salt0 iv0).1 = .ok bundle ∧
      (decryptToPlaintext { bundle with publicKey := pk32 } "correcthorse").1 =
        .ok K0 ∧
      (decryptImportedWallet { bundle with publicKey := pk32 } "correcthorse").1 =
        .error .pubkeyMismatch :=
  C6_forged_pubkey K0 "correcthorse" pk32 salt0 iv0 kp0 (by decide) (by decide)
    (by decide) (by decide) (by decide)

set_option maxRecDepth 400000 in
/-- C9 counterexample: with a valid key and an 11-character password the
reject is the weak-password error, but the operation log shows that
base58 decoding and ed25519 public-key derivation (cryptographic work on
the key input) ran before the rejection — refuting "before any other
cryptographic work is performed on the inputs". -/
theorem C9_counterexample :
    (encryptWalletForImport K0 "elevenchars" salt0 iv0).1 =
      .error .weakPassword ∧
    (encryptWalletForImport K0 "elevenchars" salt0 iv0).2 =
      [.bs58Decode, .ed25519Derive] ∧
    COp.ed25519Derive ∈ (encryptWalletForImport K0 "elevenchars" salt0 iv0).2 := by
  decide

/-- C9 amended: for a valid key, a password of length below 12 is
rejected with the weak-password error before any key derivation — the
operation log at rejection is exactly the key-validation operations, with
no PBKDF2 and no cipher call — and any password of length at least 12 is
accepted; however the private-key validation (base58 decode and ed25519
derivation) does run before the password check. -/
theorem C9_password_floor (K P : String) (salt iv : List Nat) (kp : SKeypair)
    (hK : keypairOfBase58 K = some kp) :
    (P.length < 12 →
      encryptWalletForImport K P salt iv =
        (.error .weakPassword, [.bs58Decode, .ed25519Derive])) ∧
    (12 ≤ P.length →
      ∃ bundle, (encryptWalletForImport K P salt iv).1 = .ok bundle) := by
  obtain ⟨bytes, hbs, hlen, hseed, hpub, hderive⟩ := keypairOfBase58_spec hK
  constructor
  · intro hlt
    unfold encryptWalletForImport
    rw [hbs]
    simp only [hlen]
    rw [if_neg (by simp), if_neg (by rw [hderive]; simp), if_pos hlt]
  · intro hge
    exact ⟨_, by rw [encrypt_ok_eq K P salt iv kp hK hge]⟩

set_option maxRecDepth 400000 in
/-- Witness for the amended C9 at concrete 11- and 12-character passwords. -/
theorem C9_password_floor_witness :
    encryptWalletForImport K0 "elevenchars" salt0 iv0 =
      (.error .weakPassword, [.bs58Decode, .ed25519Derive]) ∧
    ∃ bundle, (encryptWalletForImport K0 "correcthorse" salt0 iv0).1 = .ok bundle :=
  ⟨(C9_password_floor K0 "elevenchars" salt0 iv0 kp0 (by decide)).1 (by decide),
   (C9_password_floor K0 "correcthorse" salt0 iv0 kp0 (by decide)).2 (by decide)⟩

set_option maxRecDepth 40000 in
/-- C5 counterexample: a stored encryptedKey splitting into three parts
is not rejected as malformed — decryption proceeds (its first two groups
are used) and PBKDF2 runs, refuting "fails with a malformed-bundle error
before any key derivation ... a string splitting into three or more
parts is rejected". -/
theorem C5_counterexample :
    (splitCh bundle3parts.encryptedKey.data).length = 3 ∧
    (decryptImportedWallet bundle3parts "correcthorse").1 ≠
      .error .malformedEncryptedKey ∧
    COp.pbkdf2 ∈ (decryptImportedWallet bundle3parts "correcthorse").2 := by
  decide

/-- C5 amended: decryptImportedWallet fails with the malformed-bundle
error before any key derivation (empty operation log) exactly in the
cases where the split of encryptedKey does not yield two nonempty
leading groups; an encryptedKey with three or more groups is not
rejected at parse time — its first two groups are used. -/
theorem C5_malformed_parse (bundle : WalletImportBundle) (P : String)
    (h : firstTwo (splitCh bundle.encryptedKey.data) = none) :
    decryptImportedWallet bundle P = (.error .malformedEncryptedKey, []) := by
  unfold decryptImportedWallet decryptToPlaintext
  rw [h]

/-- Witness for the amended C5 at a concrete one-group encryptedKey. -/
theorem C5_malformed_parse_witness :
    decryptImportedWallet
      { encryptedKey := "aa", salt := "00", iv := "00",
        publicKey := pk32, version := "1.0" } "correcthorse" =
      (.error .malformedEncryptedKey, []) :=
  C5_malformed_parse _ "correcthorse" (by decide)

set_option maxRecDepth 40000 in
/-- C4 counterexample: a bundle whose encryptedKey splits into three
parts passes verification, refuting the claimed "exactly two parts"
characterization (its salt and iv are also never hex-validated, since
Node hex decoding is lenient). -/
theorem C4_counterexample :
    verifyWalletImportBundle bundle3parts = true ∧
    (splitCh bundle3parts.encryptedKey.data).length ≠ 2 := by
  decide

/-- C4 amended: verifyWalletImportBundle returns true iff the version is
'1.0', the four required fields are nonempty, the declared publicKey
base58-decodes to exactly 32 bytes, and the first two colon-separated
groups of encryptedKey are nonempty.  Hex validity of salt, iv and the
encryptedKey groups is NOT enforced (Node's lenient hex decoding never
throws), an encryptedKey with three or more groups passes, extra object
fields are not examined, and the function never attempts decryption. -/
theorem C4_verify_iff (b : WalletImportBundle) :
    verifyWalletImportBundle b = true ↔
      (b.version = "1.0" ∧ b.encryptedKey ≠ "" ∧ b.salt ≠ "" ∧ b.iv ≠ "" ∧
       b.publicKey ≠ "" ∧
       (bs58decode b.publicKey).map List.length = some 32 ∧
       (firstTwo (splitCh b.encryptedKey.data)).isSome = true) := by
  unfold verifyWalletImportBundle
  by_cases hv : b.version = "1.0"
  · rw [if_neg (by simp [hv])]
    by_cases he : b.encryptedKey = "" ∨ b.salt = "" ∨ b.iv = "" ∨ b.publicKey = ""
    · rw [if_pos he]
      simp only [Bool.false_eq_true, false_iff]
      intro hc
      rcases he with h | h | h | h
      · exact hc.2.1 h
      · exact hc.2.2.1 h
      · exact hc.2.2.2.1 h
      · exact hc.2.2.2.2.1 h
    · rw [if_neg he]
      push_neg at he
      obtain ⟨h1, h2, h3, h4⟩ := he
      cases hbs : bs58decode b.publicKey with
      | none => simp [hv, h1, h2, h3, h4]
      | some pk =>
        by_cases hlen : pk.length = 32
        · cases hft : firstTwo (splitCh b.encryptedKey.data) with
          | none => simp [hv, h1, h2, h3, h4, hlen, hft]
          | some p => simp [hv, h1, h2, h3, h4, hlen, hft]
        · simp [hv, h1, h2, h3, h4, hlen]
  · rw [if_pos (by simp [hv])]
    simp [hv]

/-- C7: wallet resolution returns the imported wallet if present, else
the generated wallet, else none; in particular a user holding both
resolves to the imported wallet, the balances tool queries the imported
public key, and transaction signing takes the imported-wallet path:
an omitted password and the JS-falsy empty-string password are both
rejected with the password-required error, and any nonempty password is
used to decrypt the imported bundle, never touching the generated key. -/
theorem C7_precedence (σ : String → String) (submit : SKeypair → Except WErr String)
    (f : String → WalletBalances) (row : UserRow) (pw : String)
    (himp : jsTruthy row.importedWalletPublicKey = true)
    (hgen : jsTruthy row.solanaPublicKey = true)
    (hpw : pw ≠ "") :
    (∀ r : UserRow, getWalletInfo (some r) =
        (if jsTruthy r.importedWalletPublicKey then
          some ⟨r.importedWalletPublicKey.getD "", .imported,
                r.walletImportedAt.getD r.createdAt⟩
         else if jsTruthy r.solanaPublicKey then
          some ⟨r.solanaPublicKey.getD "", .generated, r.createdAt⟩
         else none)) ∧
    getWalletInfo (none : Option UserRow) = none ∧
    getWalletInfo (some row) =
      some ⟨row.importedWalletPublicKey.getD "", .imported,
            row.walletImportedAt.getD row.createdAt⟩ ∧
    kalshiGetBalances f (some row) =
      .ok (row.importedWalletPublicKey.getD "",
           f (row.importedWalletPublicKey.getD "")) ∧
    signAndSendTransaction σ submit (some row) none =
      (.error .passwordRequired, []) ∧
    signAndSendTransaction σ submit (some row) (some "") =
      (.error .passwordRequired, []) ∧
    signAndSendTransaction σ submit (some row) (some pw) =
      (match getImportedWalletKeypair row pw with
       | (.error e, ops) => (.error e, ops)
       | (.ok keypair, ops) => (submit keypair, ops)) := by
  have hres : getWalletInfo (some row) =
      some ⟨row.importedWalletPublicKey.getD "", .imported,
            row.walletImportedAt.getD row.createdAt⟩ := by
    simp [getWalletInfo, himp]
  refine ⟨fun r => rfl, rfl, hres, ?_, ?_, ?_, ?_⟩
  · unfold kalshiGetBalances
    rw [hres]
  · unfold signAndSendTransaction
    rw [hres]
    simp
  · unfold signAndSendTransaction
    rw [hres]
    simp
  · unfold signAndSendTransaction
    rw [hres]
    simp [hpw]

/-- Witness for C7 at a user row holding both wallets and a concrete
nonempty password. -/
theorem C7_precedence_witness :
    getWalletInfo (some rowBoth) =
      some ⟨rowBoth.importedWalletPublicKey.getD "", .imported,
            rowBoth.walletImportedAt.getD rowBoth.createdAt⟩ ∧
    signAndSendTransaction id (fun _ => .ok "sig") (some rowBoth) none =
      (.error .passwordRequired, []) ∧
    signAndSendTransaction id (fun _ => .ok "sig") (some rowBoth) (some "") =
      (.error .passwordRequired, []) :=
  ⟨(C7_precedence id (fun _ => .ok "sig") (fun _ => ⟨0, 0⟩) rowBoth "pw"
      (by decide) (by decide) (by decide)).2.2.1,
   (C7_precedence id (fun _ => .ok "sig") (fun _ => ⟨0, 0⟩) rowBoth "pw"
      (by decide) (by decide) (by decide)).2.2.2.2.1,
   (C7_precedence id (fun _ => .ok "sig") (fun _ => ⟨0, 0⟩) rowBoth "pw"
      (by decide) (by decide) (by decide)).2.2.2.2.2.1⟩

/-! ## Import-time uniqueness (C8 machinery) -/

theorem holdsKey_iff_mem_keysOf (u : UserRow) (pk : String) :
    holdsKey u pk ↔ pk ∈ keysOf u := by
  unfold holdsKey keysOf
  cases hs : u.solanaPublicKey <;> cases hi : u.importedWalletPublicKey <;>
    simp [Option.toList, eq_comm]

theorem findFirstByKey_eq_none {db : List UserRow} {pk : String}
    (h : findFirstByKey db pk = none) : ∀ x ∈ db, ¬ holdsKey x pk := by
  intro x hx hk
  have hp := List.find?_eq_none.mp h x hx
  rcases hk with h1 | h1 <;> simp [h1] at hp

theorem findFirstByKey_eq_some {db : List UserRow} {pk : String} {ex : UserRow}
    (h : findFirstByKey db pk = some ex) : ex ∈ db ∧ holdsKey ex pk := by
  refine ⟨List.mem_of_find?_eq_some h, ?_⟩
  have hp := List.find?_some h
  unfold holdsKey
  simpa using hp

theorem updateUser_mem {db : List UserRow} {userId : String}
    {upd : UserRow → UserRow} {x : UserRow}
    (hx : x ∈ updateUser db userId upd) :
    ∃ y ∈ db, x = (if y.id = userId then upd y else y) := by
  unfold updateUser at hx
  obtain ⟨y, hy, he⟩ := List.mem_map.mp hx
  exact ⟨y, hy, he.symm⟩

/-- Updating the import columns of the (unique) owner of `pk` preserves
the one-key-one-user invariant, provided every holder of `pk` already is
that user. -/
theorem uniqueOwners_update (db : List UserRow) (userId pk encv saltv : String)
    (now : Nat)
    (huniq : uniqueOwners db)
    (hall : ∀ x ∈ db, holdsKey x pk → x.id = userId) :
    uniqueOwners (updateUser db userId (fun u =>
      { u with importedWalletPublicKey := some pk
               importedWalletEncrypted := some encv
               importedWalletSalt := some saltv
               walletImportedAt := some now })) := by
  have htrans : ∀ y : UserRow, ∀ q ∈ keysOf
      (if y.id = userId then
        ({ y with importedWalletPublicKey := some pk
                  importedWalletEncrypted := some encv
                  importedWalletSalt := some saltv
                  walletImportedAt := some now } : UserRow)
       else y),
      q ∈ keysOf y ∨ (y.id = userId ∧ q = pk) := by
    intro y q hq
    by_cases h : y.id = userId
    · rw [if_pos h] at hq
      unfold keysOf at hq ⊢
      simp only [List.mem_append] at hq ⊢
      rcases hq with hq | hq
      · exact Or.inl (Or.inl hq)
      · simp only [Option.toList, List.mem_singleton] at hq
        exact Or.inr ⟨h, hq⟩
    · rw [if_neg h] at hq
      exact Or.inl hq
  have hidp : ∀ y : UserRow,
      ((if y.id = userId then
        ({ y with importedWalletPublicKey := some pk
                  importedWalletEncrypted := some encv
                  importedWalletSalt := some saltv
                  walletImportedAt := some now } : UserRow)
       else y)).id = y.id := by
    intro y
    by_cases h : y.id = userId
    · rw [if_pos h]
    · rw [if_neg h]
  intro u' hu' v' hv' q hu'k hv'k
  obtain ⟨u, hu, hue⟩ := updateUser_mem hu'
  obtain ⟨v, hv, hve⟩ := updateUser_mem hv'
  rw [hue] at hu'k
  rw [hve] at hv'k
  rw [hue, hve, hidp u, hidp v]
  rcases htrans u q hu'k with hcu | ⟨hui, hque⟩
  · rcases htrans v q hv'k with hcv | ⟨hvi, hqve⟩
    · exact huniq u hu v hv q hcu hcv
    · subst hqve
      have hx := hall u hu ((holdsKey_iff_mem_keysOf u q).mpr hcu)
      rw [hx, hvi]
  · rcases htrans v q hv'k with hcv | ⟨hvi, hqve⟩
    · subst hque
      have hx := hall v hv ((holdsKey_iff_mem_keysOf v q).mpr hcv)
      rw [hui, hx]
    · rw [hui, hvi]

/-- C8: importWallet rejects, with the wallet-already-registered error
and without reaching the persistence step, every bundle whose declared
publicKey already belongs to a different user (generated or imported);
a successful import preserves the one-key-one-user invariant; and
re-importing the same bundle for the same user is accepted and leaves
the wallet columns unchanged (idempotent, matching timestamps). -/
theorem C8_unique_import (db : List UserRow) (userId : String)
    (bundle : WalletImportBundle) (now : Nat)
    (hver : verifyWalletImportBundle bundle = true)
    (huniq : uniqueOwners db) :
    (∀ v ∈ db, v.id ≠ userId → holdsKey v bundle.publicKey →
        importWallet db userId bundle now = .error .walletAlreadyRegistered) ∧
    (∀ db' w, importWallet db userId bundle now = .ok (db', w) →
        uniqueOwners db') ∧
    (∀ u ∈ db, u.id = userId → (db.map UserRow.id).Nodup →
        u.importedWalletPublicKey = some bundle.publicKey →
        u.importedWalletEncrypted = some bundle.encryptedKey →
        u.importedWalletSalt =
          some (bundle.salt ++ ":" ++ bundle.iv ++ ":" ++ bundle.version) →
        u.walletImportedAt = some now →
        importWallet db userId bundle now =
          .ok (db, ⟨bundle.publicKey, .imported, now⟩)) := by
  refine ⟨?_, ?_, ?_⟩
  · intro v hv hne hkey
    cases hf : findFirstByKey db bundle.publicKey with
    | none => exact absurd hkey (findFirstByKey_eq_none hf v hv)
    | some ex =>
      obtain ⟨hmem, hex⟩ := findFirstByKey_eq_some hf
      have hid : ex.id ≠ userId := by
        rw [huniq ex hmem v hv bundle.publicKey
          ((holdsKey_iff_mem_keysOf ex _).mp hex)
          ((holdsKey_iff_mem_keysOf v _).mp hkey)]
        exact hne
      unfold importWallet
      rw [hver, hf]
      simp [hid]
  · intro db' w himp
    unfold importWallet at himp
    rw [hver] at himp
    have hkey2 : (∀ x ∈ db, holdsKey x bundle.publicKey → x.id = userId) ∧
        db' = updateUser db userId (fun u =>
          { u with importedWalletPublicKey := some bundle.publicKey
                   importedWalletEncrypted := some bundle.encryptedKey
                   importedWalletSalt :=
                     some (bundle.salt ++ ":" ++ bundle.iv ++ ":" ++ bundle.version)
                   walletImportedAt := some now }) := by
      cases hf : findFirstByKey db bundle.publicKey with
      | none =>
        rw [hf] at himp
        simp only [if_neg (by simp : ¬ (true = false)), Except.ok.injEq,
          Prod.mk.injEq] at himp
        exact ⟨fun x hx hk => absurd hk (findFirstByKey_eq_none hf x hx),
               himp.1.symm⟩
      | some ex =>
        rw [hf] at himp
        by_cases hexid : ex.id = userId
        · simp only [hexid] at himp
          simp at himp
          obtain ⟨hmem, hex⟩ := findFirstByKey_eq_some hf
          refine ⟨fun x hx hk => ?_, himp.1.symm⟩
          have hxe := huniq x hx ex hmem bundle.publicKey
            ((holdsKey_iff_mem_keysOf x _).mp hk)
            ((holdsKey_iff_mem_keysOf ex _).mp hex)
          rw [hxe, hexid]
        · simp [hexid] at himp
    obtain ⟨hall, hdb'⟩ := hkey2
    rw [hdb']
    exact uniqueOwners_update db userId bundle.publicKey bundle.encryptedKey
      (bundle.salt ++ ":" ++ bundle.iv ++ ":" ++ bundle.version) now huniq hall
  · intro u hu hid hnodup h1 h2 h3 h4
    have hkeyu : holdsKey u bundle.publicKey := Or.inr h1
    cases hf : findFirstByKey db bundle.publicKey with
    | none => exact absurd hkeyu (findFirstByKey_eq_none hf u hu)
    | some ex =>
      obtain ⟨hmem, hex⟩ := findFirstByKey_eq_some hf
      have hexid : ex.id = userId := by
        have hx := huniq ex hmem u hu bundle.publicKey
          ((holdsKey_iff_mem_keysOf ex _).mp hex)
          ((holdsKey_iff_mem_keysOf u _).mp hkeyu)
        rw [hx, hid]
      have hupd : updateUser db userId (fun x =>
          { x with importedWalletPublicKey := some bundle.publicKey
                   importedWalletEncrypted := some bundle.encryptedKey
                   importedWalletSalt :=
                     some (bundle.salt ++ ":" ++ bundle.iv ++ ":" ++ bundle.version)
                   walletImportedAt := some now }) = db := by
        unfold updateUser
        have hfix : ∀ x ∈ db, (if x.id = userId then
            ({ x with importedWalletPublicKey := some bundle.publicKey
                      importedWalletEncrypted := some bundle.encryptedKey
                      importedWalletSalt :=
                        some (bundle.salt ++ ":" ++ bundle.iv ++ ":" ++ bundle.version)
                      walletImportedAt := some now } : UserRow)
           else x) = x := by
          intro x hx
          by_cases hxid : x.id = userId
          · rw [if_pos hxid]
            have hxu : x = u :=
              List.inj_on_of_nodup_map hnodup hx hu (by rw [hxid, hid])
            subst hxu
            obtain ⟨i, s, e, ip, ie, isl, wi, c⟩ := x
            simp only at h1 h2 h3 h4
            subst h1 h2 h3 h4
            rfl
          · rw [if_neg hxid]
        rw [List.map_congr_left hfix, List.map_id' db]
      unfold importWallet
      rw [hver, hf]
      simp [hexid, hupd]

set_option maxRecDepth 40000 in
/-- Witness for C8: bob already owns the declared key as his generated
wallet, so carol's import of a bundle declaring it is rejected. -/
theorem C8_unique_import_witness :
    importWallet db0 "carol" bundleFmt 5 = .error .walletAlreadyRegistered :=
  (C8_unique_import db0 "carol" bundleFmt 5 (by decide) (by decide)).1
    rowBob (by decide) (by decide) (by decide)

/-- Format-level facts extracted from a passing bundle verification. -/
theorem verify_gives (b : WalletImportBundle)
    (h : verifyWalletImportBundle b = true) :
    b.version = "1.0" ∧ b.encryptedKey ≠ "" ∧ b.salt ≠ "" ∧ b.iv ≠ "" ∧
      b.publicKey ≠ "" := by
  unfold verifyWalletImportBundle at h
  by_cases hv : b.version = "1.0"
  · refine ⟨hv, ?_⟩
    by_cases he : b.encryptedKey = "" ∨ b.salt = "" ∨ b.iv = "" ∨ b.publicKey = ""
    · rw [if_neg (by simp [hv]), if_pos he] at h
      exact absurd h (by simp)
    · push_neg at he
      exact he
  · rw [if_pos (by simp [hv])] at h
    exact absurd h (by simp)

/-- A successful `importWallet` call returns exactly the updated database
and the imported-wallet info. -/
theorem importWallet_ok_shape {db : List UserRow} {userId : String}
    {bundle : WalletImportBundle} {now : Nat} {db' : List UserRow}
    {w : WalletInfo}
    (himp : importWallet db userId bundle now = .ok (db', w)) :
    db' = updateUser db userId (fun u =>
      { u with importedWalletPublicKey := some bundle.publicKey
               importedWalletEncrypted := some bundle.encryptedKey
               importedWalletSalt :=
                 some (bundle.salt ++ ":" ++ bundle.iv ++ ":" ++ bundle.version)
               walletImportedAt := some now }) ∧
    w = ⟨bundle.publicKey, .imported, now⟩ := by
  unfold importWallet at himp
  by_cases hver : verifyWalletImportBundle bundle = false
  · rw [if_pos hver] at himp
    exact absurd himp (by simp)
  · rw [if_neg hver] at himp
    cases hf : findFirstByKey db bundle.publicKey with
    | none =>
      rw [hf] at himp
      simp only [Except.ok.injEq, Prod.mk.injEq] at himp
      exact ⟨himp.1.symm, himp.2.symm⟩
    | some ex =>
      rw [hf] at himp
      by_cases hexid : ex.id = userId
      · simp only [hexid] at himp
        simp at himp
        exact ⟨himp.1.symm, himp.2.symm⟩
      · simp [hexid] at himp

/-- C10: for every bundle accepted and persisted by importWallet whose
salt and iv contain no ':', the bundle reconstructed at signing time
from the packed 'salt:iv:version' column together with the stored
encryptedKey and publicKey equals the imported bundle field-for-field,
so sign-time decryption operates on exactly the imported bundle. -/
theorem C10_sign_time_bundle (db : List UserRow) (userId : String)
    (bundle : WalletImportBundle) (now : Nat) (db' : List UserRow)
    (w : WalletInfo)
    (hver : verifyWalletImportBundle bundle = true)
    (hs : ':' ∉ bundle.salt.data) (hi : ':' ∉ bundle.iv.data)
    (himp : importWallet db userId bundle now = .ok (db', w)) :
    ∀ row ∈ db', row.id = userId →
      reconstructBundle row = .ok bundle ∧
      ∀ pw, getImportedWalletKeypair row pw =
        (match decryptImportedWallet bundle pw with
         | (.error e, ops) => (.error e, ops)
         | (.ok dw, ops) => (.ok dw.keypair, ops)) := by
  obtain ⟨hv, hene, hsne, hine, hpne⟩ := verify_gives bundle hver
  obtain ⟨hdb', -⟩ := importWallet_ok_shape himp
  subst hdb'
  intro row hrow hrid
  obtain ⟨y, hy, hye⟩ := updateUser_mem hrow
  by_cases hyid : y.id = userId
  · rw [if_pos hyid] at hye
    subst hye
    have hd : (bundle.salt ++ ":" ++ bundle.iv ++ ":" ++ bundle.version).data
        = bundle.salt.data ++ ':' ::
            (bundle.iv.data ++ ':' :: bundle.version.data) := by
      rw [String.data_append, String.data_append, String.data_append,
          String.data_append, List.append_assoc, List.append_assoc,
          List.append_assoc]
      rfl
    have hvd : ':' ∉ bundle.version.data := by
      rw [hv]
      decide
    have hvne : bundle.version.data ≠ [] := by
      rw [hv]
      decide
    have hsplitFull :
        splitCh (bundle.salt ++ ":" ++ bundle.iv ++ ":" ++ bundle.version).data
          = [bundle.salt.data, bundle.iv.data, bundle.version.data] := by
      rw [hd, splitCh_append_colon _ _ hs, splitCh_append_colon _ _ hi,
          splitCh_no_colon _ hvd]
    have hpackne : (bundle.salt ++ ":" ++ bundle.iv ++ ":" ++ bundle.version) ≠ "" := by
      intro e
      have hh : (bundle.salt ++ ":" ++ bundle.iv ++ ":" ++ bundle.version).data = [] := by
        rw [e]
      rw [hd] at hh
      simp at hh
    have hrecon : reconstructBundle
        { y with importedWalletPublicKey := some bundle.publicKey
                 importedWalletEncrypted := some bundle.encryptedKey
                 importedWalletSalt :=
                   some (bundle.salt ++ ":" ++ bundle.iv ++ ":" ++ bundle.version)
                 walletImportedAt := some now } = .ok bundle := by
      unfold reconstructBundle
      rw [if_neg (not_not_intro ⟨by simp [jsTruthy, hene], by simp [jsTruthy, hpackne]⟩)]
      dsimp only [Option.getD]
      rw [hsplitFull]
      dsimp only
      rw [if_neg hvne]
    refine ⟨hrecon, ?_⟩
    intro pw
    unfold getImportedWalletKeypair
    rw [hrecon]
  · rw [if_neg hyid] at hye
    rw [hye] at hrid
    exact absurd hrid hyid

set_option maxRecDepth 40000 in
/-- Witness for C10: carol imports a format-valid bundle into an empty
wallet slot, and the sign-time reconstruction returns it unchanged. -/
theorem C10_sign_time_bundle_witness :
    reconstructBundle rowCarolImp = .ok bundleFmt :=
  (C10_sign_time_bundle [rowCarol] "carol" bundleFmt 5 [rowCarolImp]
    ⟨pk32, .imported, 5⟩ (by decide) (by decide) (by decide) (by decide)
    rowCarolImp (by decide) (by decide)).1
